import Mathlib

/-!
Shallow embedding of the `GraphDb` leveled lineage graph
(`src/datahub-web/packages/data-portal/app/utils/graph-db.ts`).

Nodes carry a numeric id, a signed level, `selected`/`loaded` flags and an
optional payload.  Edges are directed descendant-to-ancestor (`from` the
node further from the root, `to` the node closer to the root).  The class
fields `nodes`, `edges`, `uniqueKeys`, `idGenerator` become the fields of
the `GraphDb` structure; the computed-property indices become functions of
the structure.  Dynamic payload field access (`get(payload, key)`) is
modelled by an explicit accessor `pget : T -> String -> Option String`
passed to the operations that read payload fields; JavaScript
stringification of a missing field yields the string "undefined", which
`strVal` reproduces.

The TypeScript `selected?: boolean` / `loaded?: boolean` flags are used
only through truthiness tests and boolean writes, so they are embedded as
`Bool` with default `false` (the spec's own data model: "selected
(boolean, default false)").
-/

/-- A node of the graph (`INode<T>` in the source). -/
structure INode (T : Type) where
  id : Nat
  level : Int
  selected : Bool := false
  loaded : Bool := false
  payload : Option T := none
  deriving DecidableEq, Repr

/-- A directed edge (`IEdge<T>` in the source; its fields are node ids, the
payload type parameter is phantom there and dropped here).  `fromId` is the
source field `from` (a Lean keyword), `toId` is `to`. -/
structure IEdge where
  fromId : Nat
  toId : Nat
  deriving DecidableEq, Repr

/-- The graph state: the mutable fields of the `GraphDb` class. -/
structure GraphDb (T : Type) where
  nodes : List (INode T) := []
  edges : List IEdge := []
  uniqueKeys : List String := []
  idGenerator : Nat := 1
  deriving DecidableEq, Repr

/-- A `Partial<INode<T>>` patch: `none` marks an absent key. -/
structure NodePatch (T : Type) where
  id : Option Nat := none
  level : Option Int := none
  selected : Option Bool := none
  loaded : Option Bool := none
  payload : Option (Option T) := none
  deriving DecidableEq, Repr

/-- Shallow merge `{...node, ...attrs}`: a key present in the patch
overrides the node's field. -/
def applyPatch {T : Type} (n : INode T) (p : NodePatch T) : INode T :=
  { id := p.id.getD n.id
    level := p.level.getD n.level
    selected := p.selected.getD n.selected
    loaded := p.loaded.getD n.loaded
    payload := p.payload.getD n.payload }

/-- Last-wins lookup by id over a node list: lodash `keyBy(nodes, 'id')`
keeps the last element for a repeated key, so later elements take
priority. -/
def lookupLast {T : Type} (i : Nat) : List (INode T) → Option (INode T)
  | [] => none
  | n :: l =>
    match lookupLast i l with
    | some m => some m
    | none => if n.id = i then some n else none

/-- `nodesById` index: id -> node (last wins on duplicate ids). -/
def GraphDb.nodesById {T : Type} (g : GraphDb T) (i : Nat) : Option (INode T) :=
  lookupLast i g.nodes

/-- `edgesByFrom` index: the edges whose `from` is `i`, in insertion order
(`groupBy(this.edges, 'from')`; an absent key is the empty list, matching
the `|| []` at the use sites). -/
def GraphDb.edgesByFrom {T : Type} (g : GraphDb T) (i : Nat) : List IEdge :=
  g.edges.filter (fun e => e.fromId = i)

/-- `edgesByTo` index: the edges whose `to` is `i`, in insertion order. -/
def GraphDb.edgesByTo {T : Type} (g : GraphDb T) (i : Nat) : List IEdge :=
  g.edges.filter (fun e => e.toId = i)

/-- `parentsByNodeId` index: one-hop ancestors, `edgesByFrom[i]` mapped
through `to` into `nodesById`.  In the source a dangling edge would map to
`undefined` (and crash any later traversal step); `filterMap` drops such
entries, which coincides with the source on every graph whose edges
reference existing nodes — all graphs built by `addNode`/`addEdge` with
nodes of the graph. -/
def GraphDb.parentsByNodeId {T : Type} (g : GraphDb T) (i : Nat) : List (INode T) :=
  (g.edgesByFrom i).filterMap (fun e => g.nodesById e.toId)

/-- `childrenByNodeId` index: one-hop descendants, `edgesByTo[i]` mapped
through `from` into `nodesById`. -/
def GraphDb.childrenByNodeId {T : Type} (g : GraphDb T) (i : Nat) : List (INode T) :=
  (g.edgesByTo i).filterMap (fun e => g.nodesById e.fromId)

/-- `downstreamNodes`: the nodes with level > 0, in node order. -/
def GraphDb.downstreamNodes {T : Type} (g : GraphDb T) : List (INode T) :=
  g.nodes.filter (fun n => 0 < n.level)

/-- `upstreamNodes`: the nodes with level < 0, in node order. -/
def GraphDb.upstreamNodes {T : Type} (g : GraphDb T) : List (INode T) :=
  g.nodes.filter (fun n => n.level < 0)

/-- `minLevel`: `this.nodes.reduce((min, node) => node.level < min ? node.level : min, 0)`. -/
def GraphDb.minLevel {T : Type} (g : GraphDb T) : Int :=
  g.nodes.foldl (fun mn n => if n.level < mn then n.level else mn) 0

/-- `getIsUpstream(node)`: whether the node sits on the upstream side. -/
def getIsUpstream {T : Type} (n : INode T) : Bool :=
  decide (n.level < 0)

/-- JavaScript template stringification of a payload field value:
a missing field (`undefined`) prints as "undefined". -/
def strVal : Option String → String
  | some s => s
  | none => "undefined"

/-- The key under which a node is filed in `uniqueIndexes[k]`:
`get(node, 'payload.' + k)` stringified (a node without payload, or whose
payload misses the field, files under "undefined"). -/
def nodeKey {T : Type} (pget : T → String → Option String) (n : INode T) (k : String) : String :=
  match n.payload with
  | some q => strVal (pget q k)
  | none => "undefined"

/-- Lookup in the `uniqueIndexes[k]` index: `keyBy(nodes, node =>
get(node, 'payload.' + k))` keeps the last node per key, so later nodes
take priority. -/
def lookupByKey {T : Type} (pget : T → String → Option String) (k v : String) :
    List (INode T) → Option (INode T)
  | [] => none
  | n :: l =>
    match lookupByKey pget k v l with
    | some m => some m
    | none => if nodeKey pget n k = v then some n else none

/-- `findNode(payload)`: fold over `uniqueKeys`, keeping the first hit;
for each key the payload's field value is stringified and looked up in the
corresponding unique index. -/
def GraphDb.findNode {T : Type} (pget : T → String → Option String)
    (g : GraphDb T) (p : T) : Option (INode T) :=
  g.uniqueKeys.foldl
    (fun acc k =>
      match acc with
      | some n => some n
      | none => lookupByKey pget k (strVal (pget p k)) g.nodes)
    none

/-- `setNodeAttrs(id, attrs)`: map over the nodes, shallow-merging the
patch into every node whose id matches; only the `nodes` field of the
state changes. -/
def GraphDb.setNodeAttrs {T : Type} (g : GraphDb T) (i : Nat) (attrs : NodePatch T) :
    GraphDb T :=
  { g with nodes := g.nodes.map (fun n => if n.id = i then applyPatch n attrs else n) }

/-- `addEdge(parent, child)`: the candidate edge is `{from: child.id,
to: parent.id}`; it is appended unless `edgesByFrom[edge.from]` already
holds an edge with the same `to` (the duplicate check scans only edges
sharing the same `from`). -/
def GraphDb.addEdge {T : Type} (g : GraphDb T) (parent child : INode T) : GraphDb T :=
  let edge : IEdge := { fromId := child.id, toId := parent.id }
  let fromIndex := g.edgesByFrom edge.fromId
  match fromIndex.find? (fun otherEdge => otherEdge.toId = edge.toId) with
  | some _ => g
  | none => { g with edges := g.edges ++ [edge] }

/-- `addNode(node, parentNode?, upstream?)`: dedup lookup through
`findNode`; on a miss a fresh node is appended with the next id and level
`parent.level ± 1` (or 0 without a parent); when a parent is supplied an
edge is ensured between the node and the parent (the call site passes
`addEdge(edgeChild, edgeParent)`, whose first argument is `addEdge`'s
`parent` parameter, exactly as in the source).  Returns the new state and
the returned node. -/
def GraphDb.addNode {T : Type} (pget : T → String → Option String)
    (g : GraphDb T) (node : T) (parentNode : Option (INode T)) (upstream : Bool) :
    GraphDb T × INode T :=
  let found := g.findNode pget node
  let step1 : GraphDb T × INode T :=
    match found with
    | some n => (g, n)
    | none =>
      let level : Int :=
        match parentNode with
        | some pn => if upstream then pn.level - 1 else pn.level + 1
        | none => 0
      let newNode : INode T := { id := g.idGenerator, level := level, payload := some node }
      ({ g with nodes := g.nodes ++ [newNode], idGenerator := g.idGenerator + 1 }, newNode)
  match parentNode with
  | none => step1
  | some pn =>
    let newNode := step1.2
    let edgeParent := if upstream then pn else newNode
    let edgeChild := if upstream then newNode else pn
    (step1.1.addEdge edgeChild edgeParent, newNode)

/-- One round of the `getHierarchyNodes` while-loop body: every frontier
node whose level differs from `stopAtLevel` contributes its parents (if
`up`) or children; a node already at `stopAtLevel` contributes nothing. -/
def GraphDb.hierStep {T : Type} (g : GraphDb T) (up : Bool) (stopAtLevel : Int)
    (currentNodes : List (INode T)) : List (INode T) :=
  currentNodes.foldl
    (fun newNodes n =>
      if n.level ≠ stopAtLevel then
        newNodes ++ (if up then g.parentsByNodeId n.id else g.childrenByNodeId n.id)
      else newNodes)
    []

/-- The `getHierarchyNodes` while-loop, with explicit fuel bounding the
number of body executions (the source loop need not terminate on cyclic
graphs); `none` means the fuel ran out with a non-empty frontier. -/
def GraphDb.hierLoop {T : Type} (g : GraphDb T) (up : Bool) (stopAtLevel : Int) :
    Nat → List (INode T) → List (INode T) → Option (List (INode T))
  | 0, explored, current => if current.isEmpty then some explored else none
  | fuel + 1, explored, current =>
    if current.isEmpty then some explored
    else
      let next := g.hierStep up stopAtLevel current
      g.hierLoop up stopAtLevel fuel (explored ++ next) next

/-- `getHierarchyNodes(node, up, stopAtLevel)`: breadth-first expansion
seeded with `node`, accumulating every visited round. -/
def GraphDb.getHierarchyNodes {T : Type} (g : GraphDb T) (node : INode T)
    (up : Bool) (stopAtLevel : Int) (fuel : Nat) : Option (List (INode T)) :=
  g.hierLoop up stopAtLevel fuel [node] [node]

/-- The `{selected: b}` patch used by `toggle`. -/
def selPatch (T : Type) (b : Bool) : NodePatch T :=
  { selected := some b }

/-- `toUnselect.forEach(node => setNodeAttrs(node.id, {selected: b}))`. -/
def GraphDb.bulkSet {T : Type} (g : GraphDb T) (l : List (INode T)) (b : Bool) : GraphDb T :=
  l.foldl (fun h n => h.setNodeAttrs n.id (selPatch T b)) g

/-- Failure conditions of the embedded fallible operations: `notFound`
models the source dereferencing `nodesById[id]` when the id is absent
(which throws before any mutation), `outOfFuel` models a traversal that
did not terminate within the given fuel. -/
inductive GraphErr where
  | notFound
  | outOfFuel
  deriving DecidableEq, Repr

/-- The `toUnselect`/`toSelect` pair computed by `toggle` from the
pre-mutation state: a selected root unselects everything; a selected
non-root unselects its closure away from the root; an unselected node
unselects its whole side and selects its closure toward the root.  `none`
marks a closure that ran out of fuel. -/
def GraphDb.toggleSets {T : Type} (g : GraphDb T) (node : INode T) (fuel : Nat) :
    Option (List (INode T) × List (INode T)) :=
  let selected := node.selected
  let upstream := getIsUpstream node
  if selected then
    if node.level = 0 then
      some (g.nodes, [])
    else
      (g.getHierarchyNodes node upstream 0 fuel).map (fun l => (l, []))
  else
    (g.getHierarchyNodes node (!upstream) 0 fuel).map
      (fun l => ((if upstream then g.upstreamNodes else g.downstreamNodes), l))

/-- `toggle(id)`: the error carries the state at the point of failure (the
absent-id dereference happens before any mutation, so that state is the
input state unchanged).  On success: compute `toUnselect`/`toSelect` from
the pre-state, unselect them, select them, then override the toggled
node's `selected` with the negation of its pre-state value. -/
def GraphDb.toggle {T : Type} (g : GraphDb T) (id : Nat) (fuel : Nat) :
    Except (GraphErr × GraphDb T) (GraphDb T) :=
  match g.nodesById id with
  | none => .error (.notFound, g)
  | some node =>
    match g.toggleSets node fuel with
    | none => .error (.outOfFuel, g)
    | some (toUnselect, toSelect) =>
      .ok (((g.bulkSet toUnselect false).bulkSet toSelect true).setNodeAttrs node.id
        (selPatch T (!node.selected)))

/-! ### Concrete fixtures

A concrete payload type for witnesses and counterexamples: association
lists of string fields, with `pgetA` the field accessor. -/

/-- Concrete payload type: an association list of string fields. -/
abbrev Payload := List (String × String)

/-- Field accessor for `Payload`. -/
def pgetA : Payload → String → Option String :=
  fun p k => (p.find? (fun kv => kv.1 = k)).map (fun kv => kv.2)

/-- Payload of node `A`. -/
def pA : Payload := [("k", "a")]

/-- Payload of node `B`. -/
def pB : Payload := [("k", "b")]

/-- Payload of node `C`. -/
def pC : Payload := [("k", "c")]

/-- Payload of node `D`. -/
def pD : Payload := [("k", "d")]

/-- Fresh graph configured with the unique key "k" (the class field
initializers: no nodes, no edges, id generator at 1). -/
def g0 : GraphDb Payload := { uniqueKeys := ["k"] }

/-- `addNode(A)`: root at level 0, id 1. -/
def rA : GraphDb Payload × INode Payload := GraphDb.addNode pgetA g0 pA none false

/-- Graph after `addNode(A)`. -/
def gA : GraphDb Payload := rA.1

/-- The root node `A` (id 1, level 0). -/
def nA : INode Payload := rA.2

/-- `addNode(C, parent = A, downstream)` on `gA`. -/
def rC : GraphDb Payload × INode Payload := GraphDb.addNode pgetA gA pC (some nA) false

/-- Graph with root `A` and downstream child `C` (id 2, level 1, edge
`{from: 2, to: 1}`) — the closure fixture of the spec. -/
def gAC : GraphDb Payload := rC.1

/-- The downstream node `C` (id 2, level 1). -/
def nC : INode Payload := rC.2

/-- `addNode(B, parent = A, upstream)` on `gA`. -/
def rB : GraphDb Payload × INode Payload := GraphDb.addNode pgetA gA pB (some nA) true

/-- Graph with root `A` and upstream node `B` (id 2, level -1, edge
`{from: 1, to: 2}`). -/
def gAB : GraphDb Payload := rB.1

/-- The upstream node `B` (id 2, level -1). -/
def nB : INode Payload := rB.2

/-- Diamond: `B'` (id 3, level 1) as a second downstream child of `A` in `gAC`. -/
def rB2 : GraphDb Payload × INode Payload := GraphDb.addNode pgetA gAC pB (some nA) false

/-- `addNode(D, parent = C, downstream)`: id 4, level 2. -/
def rD : GraphDb Payload × INode Payload := GraphDb.addNode pgetA rB2.1 pD (some nC) false

/-- The node `D` (id 4, level 2). -/
def nD : INode Payload := rD.2

/-- The second downstream child of `A` in the diamond (id 3, level 1). -/
def nB2 : INode Payload := rB2.2

/-- Linking the existing `D` under `B'` as well: the diamond graph in
which `A` is reachable from `D` along two converging paths. -/
def gDia : GraphDb Payload := (GraphDb.addNode pgetA rD.1 pD (some rB2.2) false).1

/-- A graph with an empty unique-key set. -/
def gE : GraphDb Payload := {}

/-- First `addNode(A)` on the key-less graph. -/
def s1 : GraphDb Payload × INode Payload := GraphDb.addNode pgetA gE pA none false

/-- Second `addNode(A)` on the key-less graph. -/
def s2 : GraphDb Payload × INode Payload := GraphDb.addNode pgetA s1.1 pA none false

/-- A one-node graph whose only node was moved to level 5 through the
public `setNodeAttrs` operation (its patch type admits every node field). -/
def gX : GraphDb Payload := gA.setNodeAttrs 1 { level := some 5 }

/-- The state after `toggle(2)` on `gAC`: `A` and `C` both selected. -/
def gT1 : GraphDb Payload :=
  { nodes :=
      [{ id := 1, level := 0, selected := true, payload := some pA },
       { id := 2, level := 1, selected := true, payload := some pC }]
    edges := [{ fromId := 2, toId := 1 }]
    uniqueKeys := ["k"]
    idGenerator := 3 }

/-- The state after `toggle(2)` twice on `gAC`: `A` still selected. -/
def gT2 : GraphDb Payload :=
  { nodes :=
      [{ id := 1, level := 0, selected := true, payload := some pA },
       { id := 2, level := 1, selected := false, payload := some pC }]
    edges := [{ fromId := 2, toId := 1 }]
    uniqueKeys := ["k"]
    idGenerator := 3 }

/-- The id-monotonicity invariant: the node list carries ids 1, 2, …, n in
order and the generator holds the next id. -/
def IdsOk {T : Type} (g : GraphDb T) : Prop :=
  g.nodes.map (fun n => n.id) = List.range' 1 g.nodes.length ∧
  g.idGenerator = g.nodes.length + 1

/-! ### Helper lemmas -/

/-- A successful last-wins lookup returns a member of the list. -/
theorem lookupLast_mem {T : Type} {i : Nat} {l : List (INode T)} {n : INode T}
    (h : lookupLast i l = some n) : n ∈ l := by
  induction l with
  | nil => simp [lookupLast] at h
  | cons m l ih =>
    simp only [lookupLast] at h
    cases hl : lookupLast i l with
    | some m' =>
      rw [hl] at h
      exact List.mem_cons_of_mem m (ih (hl.trans h))
    | none =>
      rw [hl] at h
      by_cases hm : m.id = i
      · simp [hm] at h
        exact h ▸ List.mem_cons_self m l
      · simp [hm] at h

/-- A successful last-wins lookup returns a node carrying the looked-up id. -/
theorem lookupLast_id {T : Type} {i : Nat} {l : List (INode T)} {n : INode T}
    (h : lookupLast i l = some n) : n.id = i := by
  induction l with
  | nil => simp [lookupLast] at h
  | cons m l ih =>
    simp only [lookupLast] at h
    cases hl : lookupLast i l with
    | some m' =>
      rw [hl] at h
      exact ih (hl.trans h)
    | none =>
      rw [hl] at h
      by_cases hm : m.id = i
      · simp [hm] at h
        rw [← h]
        exact hm
      · simp [hm] at h

/-- Last-wins lookup commutes with an id-preserving map. -/
theorem lookupLast_map {T : Type} (f : INode T → INode T)
    (hf : ∀ x, (f x).id = x.id) (i : Nat) (l : List (INode T)) :
    lookupLast i (l.map f) = (lookupLast i l).map f := by
  induction l with
  | nil => rfl
  | cons m l ih =>
    simp only [List.map_cons, lookupLast, ih]
    cases lookupLast i l with
    | some m' => rfl
    | none =>
      simp only [Option.map_none']
      rw [hf m]
      by_cases hm : m.id = i <;> simp [hm]

/-- The `{selected: b}` patch leaves the id absent. -/
theorem selPatch_id {T : Type} (b : Bool) : (selPatch T b).id = none := rfl

/-- Merging the `{selected: b}` patch only rewrites the `selected` field. -/
theorem applyPatch_selPatch {T : Type} (n : INode T) (b : Bool) :
    applyPatch n (selPatch T b) = { n with selected := b } := rfl

/-- `setNodeAttrs` with an id-less patch, seen through `nodesById`. -/
theorem setNodeAttrs_nodesById {T : Type} (g : GraphDb T) (t : Nat) (attrs : NodePatch T)
    (hid : attrs.id = none) (i : Nat) :
    (g.setNodeAttrs t attrs).nodesById i =
      (g.nodesById i).map (fun n => if n.id = t then applyPatch n attrs else n) := by
  have hf : ∀ x : INode T, (if x.id = t then applyPatch x attrs else x).id = x.id := by
    intro x
    by_cases hx : x.id = t <;> simp [hx, applyPatch, hid]
  exact lookupLast_map _ hf i g.nodes

/-- `setNodeAttrs` keeps the node-list length. -/
theorem setNodeAttrs_length {T : Type} (g : GraphDb T) (i : Nat) (attrs : NodePatch T) :
    (g.setNodeAttrs i attrs).nodes.length = g.nodes.length := by
  simp [GraphDb.setNodeAttrs]

/-- `setNodeAttrs`, position by position. -/
theorem setNodeAttrs_getElem {T : Type} (g : GraphDb T) (t : Nat) (attrs : NodePatch T)
    (j : Nat) (h : j < g.nodes.length) (h' : j < (g.setNodeAttrs t attrs).nodes.length) :
    (g.setNodeAttrs t attrs).nodes[j] =
      if (g.nodes[j]).id = t then applyPatch (g.nodes[j]) attrs else g.nodes[j] := by
  simp [GraphDb.setNodeAttrs]

/-- `bulkSet` keeps the node-list length. -/
theorem bulkSet_length {T : Type} (l : List (INode T)) (g : GraphDb T) (b : Bool) :
    (g.bulkSet l b).nodes.length = g.nodes.length := by
  induction l generalizing g with
  | nil => rfl
  | cons m l ih =>
    show ((g.setNodeAttrs m.id (selPatch T b)).bulkSet l b).nodes.length = _
    rw [ih, setNodeAttrs_length]

/-- `bulkSet`, position by position: a node's `selected` becomes `b`
exactly when some listed node shares its id; nothing else changes. -/
theorem bulkSet_getElem {T : Type} (l : List (INode T)) (g : GraphDb T) (b : Bool)
    (j : Nat) (h : j < g.nodes.length) (h' : j < (g.bulkSet l b).nodes.length) :
    (g.bulkSet l b).nodes[j] =
      if l.any (fun m => m.id = (g.nodes[j]).id) then { g.nodes[j] with selected := b }
      else g.nodes[j] := by
  induction l generalizing g with
  | nil => simp [GraphDb.bulkSet]
  | cons m l ih =>
    have hlen : j < (g.setNodeAttrs m.id (selPatch T b)).nodes.length := by
      rw [setNodeAttrs_length]; exact h
    have hlen2 : j < ((g.setNodeAttrs m.id (selPatch T b)).bulkSet l b).nodes.length := by
      rw [bulkSet_length, setNodeAttrs_length]; exact h
    show ((g.setNodeAttrs m.id (selPatch T b)).bulkSet l b).nodes[j] = _
    rw [ih (g.setNodeAttrs m.id (selPatch T b)) hlen hlen2]
    rw [setNodeAttrs_getElem g m.id (selPatch T b) j h hlen]
    by_cases hm : (g.nodes[j]).id = m.id
    · simp only [applyPatch_selPatch, hm, if_pos rfl, List.any_cons]
      have : m.id = (g.nodes[j]).id := hm.symm
      simp [this]
    · have hm' : ¬(m.id = (g.nodes[j]).id) := fun hc => hm hc.symm
      simp only [if_neg hm, List.any_cons]
      simp [hm']

/-- The traversal loop halts at once on an empty frontier. -/
theorem hierLoop_nil {T : Type} (g : GraphDb T) (up : Bool) (stopAtLevel : Int)
    (fuel : Nat) (explored : List (INode T)) :
    g.hierLoop up stopAtLevel fuel explored [] = some explored := by
  cases fuel <;> simp [GraphDb.hierLoop]

/-- `bulkSet` keeps an id present in `nodesById`, at its id. -/
theorem bulkSet_nodesById_shape {T : Type} (l : List (INode T)) (g : GraphDb T) (b : Bool)
    {i : Nat} {n : INode T} (h : g.nodesById i = some n) :
    ∃ m, (g.bulkSet l b).nodesById i = some m ∧ m.id = n.id := by
  induction l generalizing g n with
  | nil => exact ⟨n, h, rfl⟩
  | cons m0 l ih =>
    have h1 : (g.setNodeAttrs m0.id (selPatch T b)).nodesById i =
        some (if n.id = m0.id then applyPatch n (selPatch T b) else n) := by
      rw [setNodeAttrs_nodesById _ _ _ (selPatch_id b), h]
      rfl
    obtain ⟨m, hm, hid⟩ := ih (g.setNodeAttrs m0.id (selPatch T b)) h1
    refine ⟨m, hm, ?_⟩
    rw [hid]
    by_cases hn0 : n.id = m0.id <;> simp [hn0, applyPatch_selPatch]

/-- A successful `toggle` decomposes into its final mutation chain. -/
theorem toggle_ok_eq {T : Type} {g : GraphDb T} {i fuel : Nat} {g' : GraphDb T}
    (h : g.toggle i fuel = .ok g') :
    ∃ node toUnselect toSelect,
      g.nodesById i = some node ∧
      g.toggleSets node fuel = some (toUnselect, toSelect) ∧
      g' = ((g.bulkSet toUnselect false).bulkSet toSelect true).setNodeAttrs node.id
        (selPatch T (!node.selected)) := by
  unfold GraphDb.toggle at h
  split at h
  · exact absurd h (by simp)
  · rename_i node hn
    split at h
    · exact absurd h (by simp)
    · rename_i tu ts hs
      exact ⟨node, tu, ts, hn, hs, (Except.ok.inj h).symm⟩

/-- `setNodeAttrs` with an id-less patch keeps the id sequence. -/
theorem setNodeAttrs_map_id {T : Type} (g : GraphDb T) (i : Nat) (attrs : NodePatch T)
    (hid : attrs.id = none) :
    (g.setNodeAttrs i attrs).nodes.map (fun n => n.id) = g.nodes.map (fun n => n.id) := by
  simp only [GraphDb.setNodeAttrs, List.map_map]
  refine List.map_congr_left ?_
  intro a _
  by_cases ha : a.id = i <;> simp [ha, applyPatch, hid]

/-- `bulkSet` keeps the id sequence. -/
theorem bulkSet_map_id {T : Type} (l : List (INode T)) (g : GraphDb T) (b : Bool) :
    (g.bulkSet l b).nodes.map (fun n => n.id) = g.nodes.map (fun n => n.id) := by
  induction l generalizing g with
  | nil => rfl
  | cons m l ih =>
    show ((g.setNodeAttrs m.id (selPatch T b)).bulkSet l b).nodes.map _ = _
    rw [ih, setNodeAttrs_map_id _ _ _ (selPatch_id b)]

/-- The `findNode` fold keeps the first hit and ignores later keys. -/
theorem findNode_foldl_keep {T : Type} (pget : T → String → Option String)
    (g : GraphDb T) (p : T) :
    ∀ (ks : List String) (n : INode T),
      ks.foldl
        (fun acc k =>
          match acc with
          | some n => some n
          | none => lookupByKey pget k (strVal (pget p k)) g.nodes)
        (some n) = some n := by
  intro ks
  induction ks with
  | nil => intro n; rfl
  | cons k ks ih => intro n; exact ih n

/-- Appending one node to the index: the new node wins exactly on its own
key value (last-write-wins). -/
theorem lookupByKey_append {T : Type} (pget : T → String → Option String) (k v : String)
    (l : List (INode T)) (n : INode T) :
    lookupByKey pget k v (l ++ [n]) =
      if nodeKey pget n k = v then some n else lookupByKey pget k v l := by
  induction l with
  | nil =>
    show lookupByKey pget k v [n] = _
    by_cases hc : nodeKey pget n k = v <;> simp [lookupByKey, hc]
  | cons m l ih =>
    show (match lookupByKey pget k v (l ++ [n]) with
      | some m' => some m'
      | none => if nodeKey pget m k = v then some m else none) = _
    rw [ih]
    by_cases hc : nodeKey pget n k = v
    · simp [hc]
    · simp only [if_neg hc]
      rfl

/-- `findNode` hits on the first configured key when that key's index
lookup succeeds. -/
theorem findNode_first_key {T : Type} (pget : T → String → Option String)
    (g : GraphDb T) (p : T) (k0 : String) (ks : List String) (n : INode T)
    (hks : g.uniqueKeys = k0 :: ks)
    (hit : lookupByKey pget k0 (strVal (pget p k0)) g.nodes = some n) :
    GraphDb.findNode pget g p = some n := by
  unfold GraphDb.findNode
  rw [hks, List.foldl_cons]
  show ks.foldl _ (lookupByKey pget k0 (strVal (pget p k0)) g.nodes) = some n
  rw [hit]
  exact findNode_foldl_keep pget g p ks n

/-- A freshly appended node with payload `p` is found again by `findNode`
as long as at least one unique key is configured. -/
theorem findNode_after_append {T : Type} (pget : T → String → Option String)
    (g : GraphDb T) (p : T) (n : INode T) (gen : Nat)
    (hkeys : g.uniqueKeys ≠ []) (hpay : n.payload = some p) :
    GraphDb.findNode pget { g with nodes := g.nodes ++ [n], idGenerator := gen } p =
      some n := by
  obtain ⟨k0, ks, hks⟩ := List.exists_cons_of_ne_nil hkeys
  refine findNode_first_key pget _ p k0 ks n hks ?_
  show lookupByKey pget k0 (strVal (pget p k0)) (g.nodes ++ [n]) = some n
  rw [lookupByKey_append]
  simp [nodeKey, hpay]

/-- Facts about the `minLevel` fold on a list of levels: the result is a
lower bound of the seed and of every element, and is the seed or an
element. -/
theorem intFold_facts :
    ∀ (l : List Int) (a : Int),
      l.foldl (fun mn v => if v < mn then v else mn) a ≤ a ∧
      (∀ v ∈ l, l.foldl (fun mn v => if v < mn then v else mn) a ≤ v) ∧
      (l.foldl (fun mn v => if v < mn then v else mn) a = a ∨
        l.foldl (fun mn v => if v < mn then v else mn) a ∈ l) := by
  intro l
  induction l with
  | nil => intro a; exact ⟨le_refl a, by simp, Or.inl rfl⟩
  | cons v l ih =>
    intro a
    obtain ⟨h1, h2, h3⟩ := ih (if v < a then v else a)
    have hstep : (if v < a then v else a) ≤ a := by
      by_cases hv : v < a <;> simp [hv]
      exact le_of_lt hv
    have hstepv : (if v < a then v else a) ≤ v := by
      by_cases hv : v < a <;> simp [hv]
      exact le_of_not_lt hv
    simp only [List.foldl_cons]
    refine ⟨le_trans h1 hstep, ?_, ?_⟩
    · intro w hw
      rcases List.mem_cons.mp hw with rfl | hw
      · exact le_trans h1 hstepv
      · exact h2 w hw
    · rcases h3 with h3 | h3
      · by_cases hv : v < a
        · refine Or.inr ?_
          rw [h3]
          simp [hv]
        · refine Or.inl ?_
          rw [h3]
          simp [hv]
      · exact Or.inr (List.mem_cons_of_mem v h3)

/-- After a successful `toggle(i)`, the node at `i` carries the negation
of its pre-state `selected` flag (the final `setNodeAttrs` override). -/
theorem toggle_ok_selected {T : Type} {g : GraphDb T} {i fuel : Nat} {g' : GraphDb T}
    (h : g.toggle i fuel = .ok g') {n : INode T} (hn : g.nodesById i = some n) :
    ∃ n', g'.nodesById i = some n' ∧ n'.selected = !n.selected := by
  obtain ⟨node, tu, ts, hn', _hs, hg'⟩ := toggle_ok_eq h
  have hnode : node = n := Option.some.inj (hn'.symm.trans hn)
  subst hnode
  have hid : node.id = i := lookupLast_id hn'
  obtain ⟨m1, hm1, hid1⟩ := bulkSet_nodesById_shape tu g false hn'
  obtain ⟨m2, hm2, hid2⟩ := bulkSet_nodesById_shape ts (g.bulkSet tu false) true hm1
  have hm2id : m2.id = node.id := by rw [hid2, hid1]
  refine ⟨{ m2 with selected := !node.selected }, ?_, rfl⟩
  rw [hg']
  rw [setNodeAttrs_nodesById _ _ _ (selPatch_id (!node.selected)), hm2]
  simp [hm2id, applyPatch_selPatch]

/-! ### Claim theorems -/

/-- C4: on the fixture with root `A` (level 0) and downstream child `C`
(level 1, edge `{from: C.id, to: A.id}`), `getHierarchyNodes(C, up = true,
stopAtLevel = 0)` returns exactly `[C, A]` (for every sufficient fuel),
and a frontier node whose level equals `stopAtLevel` is included but never
expanded: it contributes nothing to the next frontier. -/
theorem closure_root_child_exact :
    gAC.getHierarchyNodes nC true 0 2 = some [nC, nA] ∧
    (∀ fuel : Nat, gAC.getHierarchyNodes nC true 0 (fuel + 2) = some [nC, nA]) ∧
    (∀ (T : Type) (g : GraphDb T) (up : Bool) (stopAtLevel : Int) (n : INode T)
        (current : List (INode T)), n.level = stopAtLevel →
        g.hierStep up stopAtLevel (n :: current) = g.hierStep up stopAtLevel current) := by
  refine ⟨by decide, ?_, ?_⟩
  · intro fuel
    have h : gAC.getHierarchyNodes nC true 0 (fuel + 2) =
        gAC.hierLoop true 0 fuel [nC, nA] [] := rfl
    rw [h]
    exact hierLoop_nil gAC true 0 fuel [nC, nA]
  · intro T g up stopAtLevel n current h
    simp [GraphDb.hierStep, h]

/-- C4 witness: the frontier-node rule applied at the fixture root. -/
theorem closure_root_child_exact_witness :
    gAC.getHierarchyNodes nC true 0 2 = some [nC, nA] ∧
    gAC.hierStep true 0 [nA] = gAC.hierStep true 0 [] :=
  ⟨closure_root_child_exact.1,
    closure_root_child_exact.2.2 Payload gAC true 0 nA [] (by decide)⟩

/-- C5: `getHierarchyNodes` performs no visited-set deduplication: in the
diamond graph where `A` is reachable from `D` along two converging paths,
the returned sequence contains `A` twice. -/
theorem closure_no_visited_dedup :
    gDia.getHierarchyNodes nD true 0 3 = some [nD, nC, nB2, nA, nA] ∧
    ((gDia.getHierarchyNodes nD true 0 3).getD []).count nA = 2 := by
  constructor <;> decide

/-- C6: `toggle` on an id absent from `nodesById` fails with the NotFound
condition, and the failure is total: the state carried at the failure
point is the input state, unchanged. -/
theorem toggle_unknown_id_fails :
    ∀ (T : Type) (g : GraphDb T) (i fuel : Nat),
      g.nodesById i = none → g.toggle i fuel = .error (.notFound, g) := by
  intro T g i fuel h
  unfold GraphDb.toggle
  rw [h]

/-- C6 witness: toggling the absent id 99 on the fixture. -/
theorem toggle_unknown_id_fails_witness :
    gAC.toggle 99 2 = .error (.notFound, gAC) :=
  toggle_unknown_id_fails Payload gAC 99 2 (by decide)

/-- C7: `addEdge(ancestor, descendant)` appends `{from: descendant.id,
to: ancestor.id}` exactly when no edge with the same `from` and the same
`to` exists (leaving the state untouched otherwise), and the duplicate
check does not prevent the reverse pair: after `addEdge` calls in both
orientations on the `A`/`B` fixture, `{from:1,to:2}` and `{from:2,to:1}`
coexist. -/
theorem addEdge_dedup_scoped :
    (∀ (T : Type) (g : GraphDb T) (parent child : INode T),
      ((∃ e ∈ g.edges, e.fromId = child.id ∧ e.toId = parent.id) →
        g.addEdge parent child = g) ∧
      ((∀ e ∈ g.edges, ¬(e.fromId = child.id ∧ e.toId = parent.id)) →
        g.addEdge parent child =
          { g with edges := g.edges ++ [{ fromId := child.id, toId := parent.id }] })) ∧
    (gAB.addEdge nA nB).edges =
      [{ fromId := 1, toId := 2 }, { fromId := 2, toId := 1 }] := by
  constructor
  · intro T g parent child
    constructor
    · rintro ⟨e, he, hf, ht⟩
      have hsome : ((g.edgesByFrom child.id).find? (fun o => o.toId = parent.id)).isSome := by
        rw [List.find?_isSome]
        exact ⟨e, List.mem_filter.mpr ⟨he, by simp [hf]⟩, by simp [ht]⟩
      obtain ⟨x, hx⟩ := Option.isSome_iff_exists.mp hsome
      simp only [GraphDb.addEdge]
      rw [hx]
    · intro hno
      have hnone : (g.edgesByFrom child.id).find? (fun o => o.toId = parent.id) = none := by
        rw [List.find?_eq_none]
        intro x hx
        obtain ⟨hxe, hxf⟩ := List.mem_filter.mp hx
        simp only [decide_eq_true_eq]
        intro hxt
        exact hno x hxe ⟨by simpa using hxf, hxt⟩
      simp only [GraphDb.addEdge]
      rw [hnone]
  · decide

/-- C7 witness: a duplicate (same `from`, same `to`) insertion on the
fixture is a no-op. -/
theorem addEdge_dedup_scoped_witness : gAB.addEdge nB nA = gAB :=
  (addEdge_dedup_scoped.1 Payload gAB nB nA).1
    ⟨{ fromId := 1, toId := 2 }, by decide, rfl, rfl⟩

/-- C9: `setNodeAttrs(id, patch)` rewrites exactly the nodes whose id
matches, with the shallow merge of the patch over their fields; length and
order are preserved, the other state fields are untouched, and when no
node carries the id the whole state is unchanged. -/
theorem setNodeAttrs_frame :
    ∀ (T : Type) (g : GraphDb T) (i : Nat) (attrs : NodePatch T),
      (g.setNodeAttrs i attrs).edges = g.edges ∧
      (g.setNodeAttrs i attrs).uniqueKeys = g.uniqueKeys ∧
      (g.setNodeAttrs i attrs).idGenerator = g.idGenerator ∧
      (g.setNodeAttrs i attrs).nodes.length = g.nodes.length ∧
      (∀ (j : Nat) (h : j < g.nodes.length) (h2 : j < (g.setNodeAttrs i attrs).nodes.length),
        ((g.nodes[j]).id = i →
          (g.setNodeAttrs i attrs).nodes[j] = applyPatch (g.nodes[j]) attrs) ∧
        ((g.nodes[j]).id ≠ i → (g.setNodeAttrs i attrs).nodes[j] = g.nodes[j])) ∧
      ((∀ n ∈ g.nodes, n.id ≠ i) → g.setNodeAttrs i attrs = g) := by
  intro T g i attrs
  refine ⟨rfl, rfl, rfl, setNodeAttrs_length g i attrs, ?_, ?_⟩
  · intro j h h2
    constructor
    · intro hid
      rw [setNodeAttrs_getElem g i attrs j h h2, if_pos hid]
    · intro hid
      rw [setNodeAttrs_getElem g i attrs j h h2, if_neg hid]
  · intro hno
    have hmap : g.nodes.map (fun n => if n.id = i then applyPatch n attrs else n) = g.nodes := by
      have hc : ∀ a ∈ g.nodes,
          (fun n => if n.id = i then applyPatch n attrs else n) a = id a := by
        intro a ha
        simp [hno a ha]
      rw [List.map_congr_left hc, List.map_id]
    show { g with nodes := g.nodes.map _ } = g
    rw [hmap]

/-- C9 witness: a patch aimed at the absent id 99 leaves the fixture
unchanged. -/
theorem setNodeAttrs_frame_witness :
    gAC.setNodeAttrs 99 (selPatch Payload false) = gAC :=
  (setNodeAttrs_frame Payload gAC 99 (selPatch Payload false)).2.2.2.2.2 (by decide)

/-- C2 (amended): `minLevel` is the minimum of 0 and all node levels: it
is 0 on the empty graph, is at most 0, bounds every node's level from
below, and is attained by some node whenever it is negative.  (It is not
the minimum over the nodes alone: see the counterexample.) -/
theorem minLevel_bounds :
    ∀ (T : Type) (g : GraphDb T),
      (g.nodes = [] → g.minLevel = 0) ∧
      g.minLevel ≤ 0 ∧
      (∀ n ∈ g.nodes, g.minLevel ≤ n.level) ∧
      (g.minLevel < 0 → ∃ n ∈ g.nodes, n.level = g.minLevel) := by
  intro T g
  have hfold : g.minLevel =
      (g.nodes.map (fun n => n.level)).foldl (fun mn v => if v < mn then v else mn) 0 := by
    rw [List.foldl_map]
    rfl
  obtain ⟨h1, h2, h3⟩ := intFold_facts (g.nodes.map (fun n => n.level)) 0
  refine ⟨?_, ?_, ?_, ?_⟩
  · intro he
    simp [GraphDb.minLevel, he]
  · rw [hfold]; exact h1
  · intro n hn
    rw [hfold]
    exact h2 n.level (List.mem_map.mpr ⟨n, hn, rfl⟩)
  · intro hneg
    rw [hfold] at hneg
    rcases h3 with h3 | h3
    · exact absurd (h3 ▸ hneg) (lt_irrefl 0)
    · obtain ⟨n, hn, hlv⟩ := List.mem_map.mp h3
      exact ⟨n, hn, by rw [hfold, hlv]⟩

/-- C2 counterexample: a one-node graph whose node sits at level 5 (moved
there through the public `setNodeAttrs` operation) has `minLevel = 0`,
not the minimum of `node.level` over all nodes (which is 5). -/
theorem minLevel_not_min_cex :
    gX.minLevel = 0 ∧ gX.nodes.map (fun n => n.level) = [5] := by
  constructor <;> decide

/-- C2 witness: on the upstream fixture (`minLevel = -1 < 0`) the minimum
is attained by a node. -/
theorem minLevel_bounds_witness :
    ∃ n ∈ gAB.nodes, n.level = gAB.minLevel :=
  (minLevel_bounds Payload gAB).2.2.2 (by decide)

/-- `addEdge` never touches the node list. -/
theorem addEdge_nodes {T : Type} (g : GraphDb T) (parent child : INode T) :
    (g.addEdge parent child).nodes = g.nodes := by
  simp only [GraphDb.addEdge]
  split <;> rfl

/-- `addEdge` never touches the id generator. -/
theorem addEdge_idGenerator {T : Type} (g : GraphDb T) (parent child : INode T) :
    (g.addEdge parent child).idGenerator = g.idGenerator := by
  simp only [GraphDb.addEdge]
  split <;> rfl

/-- The two shapes of an `addNode` call: on a dedup hit the node list and
generator are untouched and the hit is returned; on a miss the returned
node is appended and carries the pre-call generator value as id. -/
theorem addNode_fst_shape {T : Type} (pget : T → String → Option String)
    (g : GraphDb T) (p : T) (pn : Option (INode T)) (up : Bool) :
    (GraphDb.findNode pget g p ≠ none ∧
      (GraphDb.addNode pget g p pn up).1.nodes = g.nodes ∧
      (GraphDb.addNode pget g p pn up).1.idGenerator = g.idGenerator ∧
      GraphDb.findNode pget g p = some (GraphDb.addNode pget g p pn up).2) ∨
    (GraphDb.findNode pget g p = none ∧
      (GraphDb.addNode pget g p pn up).1.nodes =
        g.nodes ++ [(GraphDb.addNode pget g p pn up).2] ∧
      (GraphDb.addNode pget g p pn up).1.idGenerator = g.idGenerator + 1 ∧
      (GraphDb.addNode pget g p pn up).2.id = g.idGenerator) := by
  cases hf : GraphDb.findNode pget g p with
  | some m =>
    left
    cases pn with
    | none =>
      have e : GraphDb.addNode pget g p none up = (g, m) := by
        unfold GraphDb.addNode
        rw [hf]
      rw [e]
      exact ⟨by simp, rfl, rfl, rfl⟩
    | some pn0 =>
      have e : GraphDb.addNode pget g p (some pn0) up =
          (g.addEdge (if up then m else pn0) (if up then pn0 else m), m) := by
        unfold GraphDb.addNode
        rw [hf]
      rw [e]
      exact ⟨by simp, addEdge_nodes g _ _, addEdge_idGenerator g _ _, rfl⟩
  | none =>
    right
    cases pn with
    | none =>
      have e : GraphDb.addNode pget g p none up =
          ({ g with
              nodes := g.nodes ++ [{ id := g.idGenerator, level := 0, payload := some p }],
              idGenerator := g.idGenerator + 1 },
            { id := g.idGenerator, level := 0, payload := some p }) := by
        unfold GraphDb.addNode
        rw [hf]
      rw [e]
      exact ⟨rfl, rfl, rfl, rfl⟩
    | some pn0 =>
      have e : GraphDb.addNode pget g p (some pn0) up =
          (({ g with
              nodes := g.nodes ++
                [{ id := g.idGenerator,
                   level := if up then pn0.level - 1 else pn0.level + 1,
                   payload := some p }],
              idGenerator := g.idGenerator + 1 } : GraphDb T).addEdge
            (if up then
              { id := g.idGenerator,
                level := if up then pn0.level - 1 else pn0.level + 1,
                payload := some p }
             else pn0)
            (if up then pn0
             else
              { id := g.idGenerator,
                level := if up then pn0.level - 1 else pn0.level + 1,
                payload := some p }),
            { id := g.idGenerator,
              level := if up then pn0.level - 1 else pn0.level + 1,
              payload := some p }) := by
        unfold GraphDb.addNode
        rw [hf]
      rw [e]
      refine ⟨rfl, ?_, ?_, rfl⟩
      · rw [addEdge_nodes]
      · rw [addEdge_idGenerator]

/-- C1 counterexample: on the root/child fixture (all flags false),
`toggle(2)` twice leaves the root's `selected` flag `true`, so the double
toggle does not restore every node's flag. -/
theorem toggle_twice_not_roundtrip_cex :
    (gAC.nodesById 1).map (fun n => n.selected) = some false ∧
    ((gAC.toggle 2 2).toOption.bind (fun g1 => (g1.toggle 2 2).toOption)).bind
      (fun g2 => (g2.nodesById 1).map (fun n => n.selected)) = some true := by
  constructor <;> decide

/-- C1 (amended): `toggle(id)` twice in succession restores the `selected`
flag of the node at `id` itself (the final override negates the pre-state
value each time); the flags of other nodes need not be restored. -/
theorem toggle_twice_restores_toggled_node :
    ∀ (T : Type) (g g1 g2 : GraphDb T) (i f1 f2 : Nat) (n : INode T),
      g.nodesById i = some n → g.toggle i f1 = .ok g1 → g1.toggle i f2 = .ok g2 →
      ∃ n2, g2.nodesById i = some n2 ∧ n2.selected = n.selected := by
  intro T g g1 g2 i f1 f2 n hn h1 h2
  obtain ⟨n1, hn1, hs1⟩ := toggle_ok_selected h1 hn
  obtain ⟨n2, hn2, hs2⟩ := toggle_ok_selected h2 hn1
  exact ⟨n2, hn2, by rw [hs2, hs1, Bool.not_not]⟩

/-- C1 witness: the double toggle on the fixture restores `C`'s own flag. -/
theorem toggle_twice_restores_toggled_node_witness :
    ∃ n2, gT2.nodesById 2 = some n2 ∧ n2.selected = nC.selected :=
  toggle_twice_restores_toggled_node Payload gAC gT1 gT2 2 2 2 nC
    (by decide) (by rfl) (by rfl)

/-- C3 counterexample: with an empty unique-key set (so every configured
key field of the payload is trivially populated), two `addNode(p)` calls
return ids 1 and 2 and leave two nodes. -/
theorem addNode_no_dedup_without_keys_cex :
    s1.2.id = 1 ∧ s2.2.id = 2 ∧ s2.1.nodes.length = 2 := by
  exact ⟨rfl, rfl, rfl⟩

/-- C3 (amended): provided at least one unique key is configured, calling
`addNode(p)` twice (no parent) with populated key fields returns the same
node both times, and the second call changes nothing: no new id, no
append. -/
theorem addNode_dedup_with_keys :
    ∀ (T : Type) (pget : T → String → Option String) (g : GraphDb T) (p : T),
      g.uniqueKeys ≠ [] → (∀ k ∈ g.uniqueKeys, pget p k ≠ none) →
      (GraphDb.addNode pget (GraphDb.addNode pget g p none false).1 p none false).1 =
        (GraphDb.addNode pget g p none false).1 ∧
      (GraphDb.addNode pget (GraphDb.addNode pget g p none false).1 p none false).2 =
        (GraphDb.addNode pget g p none false).2 := by
  intro T pget g p hkeys _hpop
  cases hf : GraphDb.findNode pget g p with
  | some m =>
    have h1 : GraphDb.addNode pget g p none false = (g, m) := by
      unfold GraphDb.addNode
      rw [hf]
    rw [h1]
    dsimp only
    rw [h1]
    exact ⟨rfl, rfl⟩
  | none =>
    have h1 : GraphDb.addNode pget g p none false =
        ({ g with
            nodes := g.nodes ++ [{ id := g.idGenerator, level := 0, payload := some p }],
            idGenerator := g.idGenerator + 1 },
          { id := g.idGenerator, level := 0, payload := some p }) := by
      unfold GraphDb.addNode
      rw [hf]
    have h2 : GraphDb.findNode pget
        { g with
          nodes := g.nodes ++ [{ id := g.idGenerator, level := 0, payload := some p }],
          idGenerator := g.idGenerator + 1 } p =
        some { id := g.idGenerator, level := 0, payload := some p } :=
      findNode_after_append pget g p _ _ hkeys rfl
    have h3 : GraphDb.addNode pget
        { g with
          nodes := g.nodes ++ [{ id := g.idGenerator, level := 0, payload := some p }],
          idGenerator := g.idGenerator + 1 } p none false =
        ({ g with
            nodes := g.nodes ++ [{ id := g.idGenerator, level := 0, payload := some p }],
            idGenerator := g.idGenerator + 1 },
          { id := g.idGenerator, level := 0, payload := some p }) := by
      unfold GraphDb.addNode
      rw [h2]
    rw [h1]
    dsimp only
    rw [h3]
    exact ⟨rfl, rfl⟩

/-- C3 witness: the dedup round-trip at the concrete fixture. -/
theorem addNode_dedup_with_keys_witness :
    (GraphDb.addNode pgetA (GraphDb.addNode pgetA g0 pA none false).1 pA none false).2 =
      (GraphDb.addNode pgetA g0 pA none false).2 :=
  (addNode_dedup_with_keys Payload pgetA g0 pA (by decide) (by decide)).2

/-- C8 counterexample: `setNodeAttrs` with a patch containing `id`
rewrites an existing node's id (1 becomes 99). -/
theorem setNodeAttrs_changes_id_cex :
    (gA.setNodeAttrs 1 { id := some 99 }).nodes.map (fun n => n.id) = [99] ∧
    gA.nodes.map (fun n => n.id) = [1] := by
  constructor <;> decide

/-- C8 (amended): node ids are assigned 1, 2, 3, … in creation order
(`IdsOk` is preserved along every operation, and a fresh node always takes
the next id); `addNode`, `addEdge` and `toggle` never change an existing
node's id, and `setNodeAttrs` preserves ids whenever its patch does not
carry an `id` field (a patch explicitly containing `id` can overwrite it:
see the counterexample). -/
theorem ids_assigned_in_order :
    (∀ (T : Type) (g : GraphDb T), g.nodes = [] → g.idGenerator = 1 → IdsOk g) ∧
    (∀ (T : Type) (pget : T → String → Option String) (g : GraphDb T) (p : T)
        (pn : Option (INode T)) (up : Bool), IdsOk g →
      IdsOk (GraphDb.addNode pget g p pn up).1 ∧
      (GraphDb.findNode pget g p = none →
        (GraphDb.addNode pget g p pn up).2.id = g.nodes.length + 1 ∧
        (GraphDb.addNode pget g p pn up).1.nodes.map (fun n => n.id) =
          g.nodes.map (fun n => n.id) ++ [g.nodes.length + 1])) ∧
    (∀ (T : Type) (g : GraphDb T) (parent child : INode T),
      (g.addEdge parent child).nodes = g.nodes) ∧
    (∀ (T : Type) (g : GraphDb T) (i : Nat) (attrs : NodePatch T), attrs.id = none →
      (g.setNodeAttrs i attrs).nodes.map (fun n => n.id) = g.nodes.map (fun n => n.id)) ∧
    (∀ (T : Type) (g : GraphDb T) (i fuel : Nat) (g' : GraphDb T),
      g.toggle i fuel = .ok g' →
      g'.nodes.map (fun n => n.id) = g.nodes.map (fun n => n.id)) := by
  refine ⟨?_, ?_, ?_, ?_, ?_⟩
  · intro T g h1 h2
    constructor
    · rw [h1]; rfl
    · rw [h2, h1]; rfl
  · intro T pget g p pn up hids
    obtain ⟨hmap, hgen⟩ := hids
    rcases addNode_fst_shape pget g p pn up with
      ⟨hne, hnodes, hidg, _⟩ | ⟨hnone, hnodes, hidg, hnid⟩
    · constructor
      · exact ⟨by rw [hnodes, hmap], by rw [hidg, hnodes, hgen]⟩
      · intro hc
        exact absurd hc hne
    · constructor
      · constructor
        · rw [hnodes, List.map_append, hmap, List.length_append]
          simp [List.range'_concat, hnid, hgen]
          omega
        · rw [hidg, hnodes, List.length_append, hgen]
          simp
      · intro _
        constructor
        · rw [hnid, hgen]
        · rw [hnodes, List.map_append]
          simp [hnid, hgen]
  · intro T g parent child
    exact addEdge_nodes g parent child
  · intro T g i attrs hid
    exact setNodeAttrs_map_id g i attrs hid
  · intro T g i fuel g' h
    obtain ⟨node, tu, ts, _, _, hg'⟩ := toggle_ok_eq h
    rw [hg', setNodeAttrs_map_id _ _ _ (selPatch_id _), bulkSet_map_id, bulkSet_map_id]

/-- C8 witness: the fresh graph satisfies the id invariant. -/
theorem ids_assigned_in_order_witness : IdsOk g0 :=
  ids_assigned_in_order.1 Payload g0 rfl rfl

/-- A closure seeded at a node already at the stop level is just the seed:
the first round expands nothing and the loop stops. -/
theorem getHierarchyNodes_at_stop {T : Type} (g : GraphDb T) (node : INode T) (up : Bool)
    (stopAtLevel : Int) (fuel : Nat) (h : node.level = stopAtLevel) :
    g.getHierarchyNodes node up stopAtLevel (fuel + 1) = some [node] := by
  have hstep : g.hierStep up stopAtLevel [node] = [] := by
    simp [GraphDb.hierStep, h]
  show (if ([node] : List (INode T)).isEmpty then some [node]
    else g.hierLoop up stopAtLevel fuel ([node] ++ g.hierStep up stopAtLevel [node])
      (g.hierStep up stopAtLevel [node])) = some [node]
  rw [hstep]
  simp [hierLoop_nil]

/-- `toggle` on an unselected level-0 node: unselect the downstream side,
select the chain to the root (just the node), override the node. -/
theorem toggle_root_ok {T : Type} (g : GraphDb T) (i fuel : Nat) (node : INode T)
    (hn : g.nodesById i = some node) (hlvl : node.level = 0) (hsel : node.selected = false) :
    g.toggle i (fuel + 1) =
      .ok (((g.bulkSet g.downstreamNodes false).bulkSet [node] true).setNodeAttrs node.id
        (selPatch T true)) := by
  have hup : getIsUpstream node = false := by
    simp [getIsUpstream, hlvl]
  have hsets : g.toggleSets node (fuel + 1) = some (g.downstreamNodes, [node]) := by
    simp [GraphDb.toggleSets, hsel, hup, getHierarchyNodes_at_stop g node true 0 fuel hlvl]
  unfold GraphDb.toggle
  rw [hn]
  show (match g.toggleSets node (fuel + 1) with
    | none => Except.error (GraphErr.outOfFuel, g)
    | some (toUnselect, toSelect) =>
      Except.ok (((g.bulkSet toUnselect false).bulkSet toSelect true).setNodeAttrs node.id
        (selPatch T (!node.selected)))) = _
  rw [hsets, hsel]
  rfl

/-- C10: toggling an unselected level-0 node in a graph with unique node
ids sets `selected := false` on every downstream node (level > 0), leaves
every upstream node (level < 0) untouched, ends with the toggled root's
flag `true`, and the selected chain toward the root is exactly the root
itself (the seed's level equals the stop level, so nothing is expanded). -/
theorem toggle_unselected_root :
    ∀ (T : Type) (g : GraphDb T) (i fuel : Nat) (node : INode T),
      (g.nodes.map (fun n => n.id)).Nodup →
      g.nodesById i = some node → node.level = 0 → node.selected = false →
      g.getHierarchyNodes node true 0 (fuel + 1) = some [node] ∧
      ∃ g', g.toggle i (fuel + 1) = .ok g' ∧
        g'.nodes.length = g.nodes.length ∧
        ∀ (j : Nat) (h : j < g.nodes.length) (h2 : j < g'.nodes.length),
          (0 < (g.nodes[j]).level → g'.nodes[j] = { g.nodes[j] with selected := false }) ∧
          ((g.nodes[j]).level < 0 → g'.nodes[j] = g.nodes[j]) ∧
          ((g.nodes[j]).id = i → g'.nodes[j] = { g.nodes[j] with selected := true }) := by
  intro T g i fuel node hnd hn hlvl hsel
  refine ⟨getHierarchyNodes_at_stop g node true 0 fuel hlvl, ?_⟩
  refine ⟨_, toggle_root_ok g i fuel node hn hlvl hsel, ?_, ?_⟩
  · rw [setNodeAttrs_length, bulkSet_length, bulkSet_length]
  · intro j h h2
    have hmem : node ∈ g.nodes := lookupLast_mem hn
    have hid : node.id = i := lookupLast_id hn
    have hinj := List.inj_on_of_nodup_map hnd
    have hb1 : j < (g.bulkSet g.downstreamNodes false).nodes.length := by
      rw [bulkSet_length]; exact h
    have hb2 : j < ((g.bulkSet g.downstreamNodes false).bulkSet [node] true).nodes.length := by
      rw [bulkSet_length, bulkSet_length]; exact h
    have e1 := bulkSet_getElem g.downstreamNodes g false j h hb1
    have e2 := bulkSet_getElem [node] (g.bulkSet g.downstreamNodes false) true j hb1 hb2
    have e3 := setNodeAttrs_getElem ((g.bulkSet g.downstreamNodes false).bulkSet [node] true)
      node.id (selPatch T true) j hb2 h2
    refine ⟨?_, ?_, ?_⟩
    · intro hpos
      have hne : ¬(g.nodes[j]).id = node.id := by
        intro heq
        have hxy : g.nodes[j] = node := hinj (List.getElem_mem h) hmem heq
        rw [hxy, hlvl] at hpos
        exact lt_irrefl 0 hpos
      have hne' : ¬node.id = (g.nodes[j]).id := fun hc => hne hc.symm
      have hany1 : (g.downstreamNodes.any fun m => m.id = (g.nodes[j]).id) = true :=
        List.any_eq_true.mpr
          ⟨g.nodes[j], List.mem_filter.mpr ⟨List.getElem_mem h, by simpa using hpos⟩, by simp⟩
      rw [e3, e2, e1, hany1]
      simp [hne, hne']
    · intro hneg
      have hne : ¬(g.nodes[j]).id = node.id := by
        intro heq
        have hxy : g.nodes[j] = node := hinj (List.getElem_mem h) hmem heq
        rw [hxy, hlvl] at hneg
        exact lt_irrefl 0 hneg
      have hne' : ¬node.id = (g.nodes[j]).id := fun hc => hne hc.symm
      have hany0 : (g.downstreamNodes.any fun m => m.id = (g.nodes[j]).id) = false := by
        rw [List.any_eq_false]
        intro m hm
        obtain ⟨hmn, hml⟩ := List.mem_filter.mp hm
        simp only [decide_eq_true_eq]
        intro heq
        have hxy : m = g.nodes[j] := hinj hmn (List.getElem_mem h) heq
        rw [hxy] at hml
        have : (0 : Int) < (g.nodes[j]).level := by simpa using hml
        exact absurd (lt_trans this hneg) (lt_irrefl 0)
      rw [e3, e2, e1, hany0]
      simp [hne, hne']
    · intro hidj
      have heq : g.nodes[j] = node := hinj (List.getElem_mem h) hmem (by rw [hidj, hid])
      have hany0 : (g.downstreamNodes.any fun m => m.id = (g.nodes[j]).id) = false := by
        rw [List.any_eq_false]
        intro m hm
        obtain ⟨hmn, hml⟩ := List.mem_filter.mp hm
        simp only [decide_eq_true_eq]
        intro heq2
        have hxy : m = g.nodes[j] := hinj hmn (List.getElem_mem h) heq2
        rw [hxy, heq, hlvl] at hml
        simp at hml
      rw [e3, e2, e1, hany0]
      simp [heq, applyPatch_selPatch]

/-- C10 witness: applied to the root of the fixture graph. -/
theorem toggle_unselected_root_witness :
    gAC.getHierarchyNodes nA true 0 (1 + 1) = some [nA] ∧
    ∃ g', gAC.toggle 1 (1 + 1) = .ok g' ∧
      g'.nodes.length = gAC.nodes.length ∧
      ∀ (j : Nat) (h : j < gAC.nodes.length) (h2 : j < g'.nodes.length),
        (0 < (gAC.nodes[j]).level → g'.nodes[j] = { gAC.nodes[j] with selected := false }) ∧
        ((gAC.nodes[j]).level < 0 → g'.nodes[j] = gAC.nodes[j]) ∧
        ((gAC.nodes[j]).id = 1 → g'.nodes[j] = { gAC.nodes[j] with selected := true }) :=
  toggle_unselected_root Payload gAC 1 1 nA (by decide) (by decide) (by decide) (by decide)
